import Mathlib

/-!
Verification development for the ERC20 bridge sampler wrapper
(`src/sampler.ts`): the `ContractOperation` protocol, the batch composer
(`createBatch`), the route expanders (`getSellQuoteOperations`,
`getBuyQuoteOperations`, `getSellQuotes`, `getBuyQuotes`) and the batch
executor (`executeBatchAsync`).

The ABI codec (ethers `Interface`) is an external collaborator; payloads
are modelled symbolically: an encoded call, an encoded result, revert
data, the `'0x0'` sentinel (`NULL_BYTES`), and the JavaScript `undefined`
value that an out-of-range array read produces.  Exceptions thrown by
TypeScript code are modelled with `Except String`.
-/

/-- Arbitrary-precision integers stand in for ethers `BigNumber`. -/
abbrev BigNumber := Int

/-- Classification tag of a liquidity source.  Modelled from the spec:
the `Protocol` enum lives in `types.ts`, which is not part of the sampled
sources; the two members recognized by the route expanders appear
verbatim in `sampler.ts`, and `Curve` stands for any further member that
the expanders do not recognize. -/
inductive Protocol where
  | UniswapV2
  | SushiSwap
  | Curve
deriving DecidableEq, Repr

/-- Display name of a protocol, used in thrown error messages and logs. -/
def Protocol.label : Protocol → String
  | .UniswapV2 => "UniswapV2"
  | .SushiSwap => "SushiSwap"
  | .Curve => "Curve"

/-- Symbolic model of the byte-strings exchanged with the ABI codec and
the remote sampler contract.  `callData` is the encoding of a sampler
function call (selector plus `[path, amounts]`), `batchCallData` the
encoding of a `batchCall` invocation, `resultNums` a well-formed
`uint256[]` return blob, `batchResult` a well-formed `bytes[]` return
blob of `batchCall`, `errorData` revert data, `nullBytes` the `'0x0'`
sentinel (`NULL_BYTES`), and `undef` the JavaScript `undefined` produced
by reading past the end of an array. -/
inductive Payload where
  | nullBytes
  | undef
  | callData (functionName : String) (path : List String) (amounts : List BigNumber)
  | batchCallData (subCalls : List Payload)
  | resultNums (nums : List BigNumber)
  | batchResult (results : List Payload)
  | errorData (msg : String)

/-- Boolean test for the `NULL_BYTES` sentinel (`cd === NULL_BYTES`). -/
def Payload.isNull : Payload → Bool
  | .nullBytes => true
  | _ => false

/-- Model of ethers `Interface.decodeFunctionResult` for the two sampler
functions, whose output type is `uint256[]`: it returns the decoded array
on a well-formed return blob and throws a call revert exception on
anything else (revert data, the `'0x0'` sentinel, `undefined`, ...). -/
def decodeSampleResult : Payload → Except String (List BigNumber)
  | .resultNums nums => .ok nums
  | _ => .error "call revert exception"

/-- Model of ethers `Interface.decodeFunctionResult` for `batchCall`,
whose output type is `bytes[]`. -/
def decodeBatchCallResult : Payload → Except String (List Payload)
  | .batchResult results => .ok results
  | _ => .error "call revert exception"

/-- Model of ethers `Interface.decodeErrorResult(...).toString()`, the
external collaborator that renders revert data as a message. -/
def decodeErrorResultMsg : Payload → String
  | .errorData msg => msg
  | _ => ""

/-- The `ContractOperation<TResult>` interface of `sampler.ts`: encode a
call, decode a successful raw result (which may throw, hence `Except`),
decode a revert. -/
structure ContractOperation (TResult : Type) where
  encodeCall : Payload
  handleCallResults : Payload → Except String TResult
  handleRevert : Payload → TResult

/-- Construction parameters of a sampler operation: the TypeScript side
passes `functionParams = [tokenAddressPath, fillAmounts]` for both
sampler functions used in this file. -/
structure SamplerFunctionParams where
  tokenAddressPath : List String
  fillAmounts : List BigNumber
deriving DecidableEq, Repr

/-- The `SamplerContractOption` options bag accepted by the
`SamplerContractOperation` constructor.  The `contractInterface` field is
always the one `Erc20BridgeSampler` interface and is left implicit in
the model. -/
structure SamplerContractOption where
  protocol : Protocol
  functionName : String
  functionParams : SamplerFunctionParams
deriving DecidableEq, Repr

/-- The fields of the `SamplerContractOperation` class. -/
structure SamplerContractOperation where
  functionName : String
  functionParams : SamplerFunctionParams
  protocol : Protocol
deriving DecidableEq, Repr

/-- The `SamplerContractOperation` constructor: copies the options bag
into the instance fields. -/
def SamplerContractOperation.ofOptions (options : SamplerContractOption) :
    SamplerContractOperation :=
  { functionName := options.functionName
    functionParams := options.functionParams
    protocol := options.protocol }

/-- The `encodeCall` method: `encodeFunctionData(fragment, functionParams)`,
a pure function of the stored function name and parameters. -/
def SamplerContractOperation.encodeCall (op : SamplerContractOperation) : Payload :=
  Payload.callData op.functionName op.functionParams.tokenAddressPath
    op.functionParams.fillAmounts

/-- The `handleCallResults` method: `decodeFunctionResult(fragment, raw)[0]`
for a `uint256[]`-returning sampler function. -/
def SamplerContractOperation.handleCallResults (_op : SamplerContractOperation)
    (callResults : Payload) : Except String (List BigNumber) :=
  decodeSampleResult callResults

/-- The `handleRevert` method: decodes the revert message, logs a warning
(see `revertLogMessage`) and returns the empty array. -/
def SamplerContractOperation.handleRevert (_op : SamplerContractOperation)
    (_callResults : Payload) : List BigNumber :=
  []

/-- The diagnostic string passed to `logger.warn` by `handleRevert`. -/
def SamplerContractOperation.revertLogMessage (op : SamplerContractOperation)
    (callResults : Payload) : String :=
  "Sampler Operation: " ++ op.protocol.label ++ "." ++ op.functionName
    ++ " reverted " ++ decodeErrorResultMsg callResults

/-- View of a `SamplerContractOperation` through the generic
`ContractOperation<BigNumber[]>` interface (in TypeScript the class simply
implements the interface). -/
def SamplerContractOperation.toContractOperation (op : SamplerContractOperation) :
    ContractOperation (List BigNumber) :=
  { encodeCall := op.encodeCall
    handleCallResults := op.handleCallResults
    handleRevert := op.handleRevert }

/-- The `SamplerRoute` record: a protocol classification and a token path. -/
structure SamplerRoute where
  protocol : Protocol
  path : List String
deriving DecidableEq, Repr

/-- The `DexSample` record.  TypeScript declares `input: BigNumber`, but
the construction site reads `amounts[j]`, which is `undefined` whenever
`j` is out of range; `Option` models that runtime value. -/
structure DexSample where
  protocol : Protocol
  input : Option BigNumber
  output : BigNumber
deriving DecidableEq, Repr

/-- The `getUniswapV2SellQuotes` factory method. -/
def getUniswapV2SellQuotes (tokenAddressPath : List String)
    (takerFillAmounts : List BigNumber)
    (protocol : Protocol := Protocol.UniswapV2) : SamplerContractOperation :=
  SamplerContractOperation.ofOptions
    { protocol := protocol
      functionName := "sampleSellsFromUniswapV2"
      functionParams := ⟨tokenAddressPath, takerFillAmounts⟩ }

/-- The `getUniswapV2BuyQuotes` factory method. -/
def getUniswapV2BuyQuotes (tokenAddressPath : List String)
    (makerFillAmounts : List BigNumber)
    (protocol : Protocol := Protocol.UniswapV2) : SamplerContractOperation :=
  SamplerContractOperation.ofOptions
    { protocol := protocol
      functionName := "sampleBuysFromUniswapV2"
      functionParams := ⟨tokenAddressPath, makerFillAmounts⟩ }

/-- The `getSellQuoteOperations` route expander: dispatch on the route's
protocol, recognized protocols delegate to `getUniswapV2SellQuotes` with
the route's path, the shared amounts and the route's protocol as override
tag; anything else throws.  A thrown exception aborts the `_.map`, so the
whole expansion is `Except`-valued. -/
def getSellQuoteOperations (amounts : List BigNumber) (routes : List SamplerRoute) :
    Except String (List SamplerContractOperation) :=
  routes.mapM fun route =>
    match route.protocol with
    | Protocol.UniswapV2 =>
        .ok (getUniswapV2SellQuotes route.path amounts route.protocol)
    | Protocol.SushiSwap =>
        .ok (getUniswapV2SellQuotes route.path amounts route.protocol)
    | p => .error ("Unsupported sell sample protocol: " ++ p.label)

/-- The `getBuyQuoteOperations` route expander. -/
def getBuyQuoteOperations (amounts : List BigNumber) (routes : List SamplerRoute) :
    Except String (List SamplerContractOperation) :=
  routes.mapM fun route =>
    match route.protocol with
    | Protocol.UniswapV2 =>
        .ok (getUniswapV2BuyQuotes route.path amounts route.protocol)
    | Protocol.SushiSwap =>
        .ok (getUniswapV2BuyQuotes route.path amounts route.protocol)
    | p => .error ("Unsupported buy sample protocol: " ++ p.label)

/-- The recognized cases of the protocol switch in the two route
expanders. -/
def supportedSampleProtocol : Protocol → Bool
  | .UniswapV2 => true
  | .SushiSwap => true
  | _ => false

/-- Decode step of `createBatch.handleCallResults`:
`_.map(subOps, (op, i) => op.handleCallResults(rawSubcallResults[i]))`,
walking the sub-operations positionally against the decoded sub-results;
reading past the end of `rawSubcallResults` yields `undefined`.  The
first thrown exception aborts the map. -/
def decodeSubcalls {TResult : Type} :
    List (ContractOperation TResult) → List Payload → Except String (List TResult)
  | [], _ => .ok []
  | op :: ops, [] => do
      let r ← op.handleCallResults Payload.undef
      let rs ← decodeSubcalls ops []
      pure (r :: rs)
  | op :: ops, raw :: raws => do
      let r ← op.handleCallResults raw
      let rs ← decodeSubcalls ops raws
      pure (r :: rs)

/-- The `createBatch` composer: the composite encodes
`batchCall([subOp.encodeCall() for each subOp])`, decodes a successful
raw result by unwrapping the `bytes[]` and letting every sub-operation
decode its own slot before folding with `resultHandler`, and decodes a
revert with `revertHandler`. -/
def createBatch {T TResult : Type} (subOps : List (ContractOperation TResult))
    (resultHandler : List TResult → T) (revertHandler : Payload → T) :
    ContractOperation T :=
  { encodeCall := Payload.batchCallData (subOps.map (·.encodeCall))
    handleCallResults := fun callResults => do
      let rawSubcallResults ← decodeBatchCallResult callResults
      let results ← decodeSubcalls subOps rawSubcallResults
      pure (resultHandler results)
    handleRevert := revertHandler }

/-- The combinator closure shared by `getSellQuotes` and `getBuyQuotes`:
`_.map(routes, (route, i) => _.map(samples[i], (output, j) =>
({protocol: route.protocol, input: amounts[j], output})))`.  Lodash maps
an `undefined` collection to the empty array, hence the `getD i []`. -/
def sampleCombiner (amounts : List BigNumber) (routes : List SamplerRoute)
    (samples : List (List BigNumber)) : List (List DexSample) :=
  routes.enum.map fun ir =>
    ((samples.getD ir.1 []).enum.map fun jo =>
      { protocol := ir.2.protocol, input := amounts.get? jo.1, output := jo.2 })

/-- The `getSellQuotes` method: expand the routes, then wrap the
sub-operations into one batch whose combinator builds the
`DexSample[][]` grid and whose batch-revert fallback is the empty
array. -/
def getSellQuotes (amounts : List BigNumber) (routes : List SamplerRoute) :
    Except String (ContractOperation (List (List DexSample))) := do
  let subOps ← getSellQuoteOperations amounts routes
  pure (createBatch (subOps.map SamplerContractOperation.toContractOperation)
    (sampleCombiner amounts routes) (fun _ => []))

/-- The `getBuyQuotes` method. -/
def getBuyQuotes (amounts : List BigNumber) (routes : List SamplerRoute) :
    Except String (ContractOperation (List (List DexSample))) := do
  let subOps ← getBuyQuoteOperations amounts routes
  pure (createBatch (subOps.map SamplerContractOperation.toContractOperation)
    (sampleCombiner amounts routes) (fun _ => []))

/-- Splice step of `executeBatchAsync`: re-walk the operations in their
original order, feeding `NULL_BYTES` to a sentinel-encoded operation and
the next unconsumed remote raw result (`rawCallResults[idx++]`, which is
`undefined` past the end) to every other one. -/
def spliceDecode {T : Type} (raw : List Payload) :
    List (ContractOperation T) → Nat → Except String (List T)
  | [], _ => .ok []
  | op :: ops, idx =>
    if op.encodeCall.isNull then do
      let r ← op.handleCallResults Payload.nullBytes
      let rs ← spliceDecode raw ops idx
      pure (r :: rs)
    else do
      let r ← op.handleCallResults (raw.getD idx Payload.undef)
      let rs ← spliceDecode raw ops (idx + 1)
      pure (r :: rs)

/-- The `executeBatchAsync` executor, parameterized by the remote
`batchCall` invocation (`samplerContract.callStatic.batchCall` pinned to
the configured block tag): encode every operation, short-circuit locally
when every payload is the `NULL_BYTES` sentinel, otherwise send exactly
the non-sentinel payloads in order and splice the raw results back onto
the original indices. -/
def executeBatchAsync {T : Type}
    (remote : List Payload → Except String (List Payload))
    (ops : List (ContractOperation T)) : Except String (List T) :=
  let callDatas := ops.map (·.encodeCall)
  if callDatas.all Payload.isNull then
    ops.mapM (fun op => op.handleCallResults Payload.nullBytes)
  else do
    let rawCallResults ← remote (callDatas.filter (fun cd => !cd.isNull))
    spliceDecode rawCallResults ops 0

/-- Modelled from the spec: the remote `batchCall` entrypoint (the
Solidity contract is not among the sampled sources).  It executes every
payload against a per-call oracle `call1`, returning exactly one raw
result per payload in order; an inner `batchCall` payload is itself
unwrapped recursively (nested atomic batching), and a reverting sub-call
surfaces as per-slot `errorData` produced by the oracle rather than
aborting the batch. -/
def execCall (call1 : Payload → Payload) : Payload → Payload
  | .batchCallData subCalls =>
      .batchResult (subCalls.attach.map fun s => execCall call1 s.1)
  | p => call1 p
decreasing_by
  have := List.sizeOf_lt_of_mem s.2
  simp only [Payload.batchCallData.sizeOf_spec]
  omega

/-- Modelled from the spec: a transport-successful remote invocation
built from the per-call oracle `call1`. -/
def remoteOf (call1 : Payload → Payload) :
    List Payload → Except String (List Payload) :=
  fun payloads => .ok (payloads.map (execCall call1))

/-- Concrete sell-quote operation used by witnesses. -/
def sellOpA : SamplerContractOperation :=
  getUniswapV2SellQuotes ["0xa", "0xb"] [100]

/-- Second concrete sell-quote operation (aliased classification). -/
def sellOpB : SamplerContractOperation :=
  getUniswapV2SellQuotes ["0xa", "0xc"] [100] Protocol.SushiSwap

/-- Operation whose payload is the `NULL_BYTES` sentinel and whose decode
accepts the sentinel, used to exercise the local short-circuit. -/
def sentinelOp : ContractOperation Nat :=
  { encodeCall := Payload.nullBytes
    handleCallResults := fun _ => .ok 3
    handleRevert := fun _ => 0 }

/-- Operation whose payload is the sentinel but whose decode
distinguishes the sentinel from remotely produced bytes. -/
def sentinelProbeOp : ContractOperation Nat :=
  { encodeCall := Payload.nullBytes
    handleCallResults := fun p =>
      match p with
      | Payload.nullBytes => .ok 0
      | _ => .ok 1
    handleRevert := fun _ => 7 }

/-- Oracle answering every non-batch sub-call with revert data, used to
model a remote environment that fails the sub-calls of a nested batch. -/
def revertingOracle : Payload → Payload :=
  fun _ => Payload.errorData "SUBCALL_REVERTED"

theorem execCall_batchCallData (call1 : Payload → Payload) (subCalls : List Payload) :
    execCall call1 (Payload.batchCallData subCalls)
      = Payload.batchResult (subCalls.map (execCall call1)) := by
  rw [execCall]
  exact congrArg Payload.batchResult (List.attach_map_val subCalls (execCall call1))

/-- C10: for the empty operations list `executeBatchAsync` takes the
all-sentinel short-circuit branch (the universally-quantified sentinel
check holds vacuously on the empty payload list), returns the empty
list, and its result does not depend on the remote collaborator at all
(zero remote invocations). -/
theorem executeBatchAsync_empty {T : Type}
    (remote remote' : List Payload → Except String (List Payload)) :
    executeBatchAsync remote ([] : List (ContractOperation T)) = Except.ok [] ∧
    executeBatchAsync remote ([] : List (ContractOperation T))
      = executeBatchAsync remote' [] :=
  ⟨rfl, rfl⟩

/-- C7: the failure-decode path of every concrete sampler operation is
total — in the model its type is a plain function, so it cannot throw —
and returns the neutral empty array regardless of the raw payload; its
only other product is the diagnostic line `revertLogMessage` handed to
the logger. -/
theorem handleRevert_neutral (op : SamplerContractOperation) (raw : Payload) :
    op.handleRevert raw = [] :=
  rfl

/-- C9: encoding is deterministic: two operations constructed from equal
parameter bags produce byte-identical payloads; `encodeCall` is a pure
function of the stored construction parameters. -/
theorem encodeCall_deterministic (o₁ o₂ : SamplerContractOption) (h : o₁ = o₂) :
    (SamplerContractOperation.ofOptions o₁).encodeCall
      = (SamplerContractOperation.ofOptions o₂).encodeCall := by
  rw [h]

/-- Witness for `encodeCall_deterministic` at a concrete options bag. -/
theorem encodeCall_deterministic_witness :
    (⟨Protocol.UniswapV2, "sampleSellsFromUniswapV2", ⟨["0xa", "0xb"], [100]⟩⟩
        : SamplerContractOption)
      = ⟨Protocol.UniswapV2, "sampleSellsFromUniswapV2", ⟨["0xa", "0xb"], [100]⟩⟩ ∧
    (SamplerContractOperation.ofOptions
        ⟨Protocol.UniswapV2, "sampleSellsFromUniswapV2", ⟨["0xa", "0xb"], [100]⟩⟩).encodeCall
      = (SamplerContractOperation.ofOptions
        ⟨Protocol.UniswapV2, "sampleSellsFromUniswapV2", ⟨["0xa", "0xb"], [100]⟩⟩).encodeCall :=
  ⟨rfl, encodeCall_deterministic _ _ rfl⟩

/-- C1 (evaluation of the code at the failing input): with two
sub-operations batched by `getSellQuotes` and a successful outer raw
result whose second slot carries revert data, the composed decode throws
that slot's decode exception instead of absorbing it, while the
sub-operation's own `handleRevert` — never consulted by `createBatch` —
would have produced the neutral `[]` for that slot. -/
theorem batch_error_slot_raises :
    (getSellQuotes [100]
        [⟨Protocol.UniswapV2, ["0xa", "0xb"]⟩, ⟨Protocol.SushiSwap, ["0xa", "0xc"]⟩]).map
        (fun op => op.handleCallResults
          (Payload.batchResult [Payload.resultNums [7], Payload.errorData "boom"]))
      = Except.ok (Except.error "call revert exception") ∧
    (getUniswapV2SellQuotes ["0xa", "0xc"] [100] Protocol.SushiSwap).handleRevert
        (Payload.errorData "boom") = [] :=
  ⟨rfl, rfl⟩

/-- C5: on a routes list whose classifications are all recognized, the
expanders return exactly one operation per route, in the input order,
each built by the UniswapV2 factory from that route's path and the
shared unmodified amounts, and each tagged with that route's own
classification (so the SushiSwap alias keeps its own identity even
though it shares the UniswapV2 sampler function). -/
theorem quote_operations_recognized (amounts : List BigNumber)
    (routes : List SamplerRoute)
    (h : ∀ r ∈ routes, supportedSampleProtocol r.protocol = true) :
    getSellQuoteOperations amounts routes
      = Except.ok (routes.map fun r => getUniswapV2SellQuotes r.path amounts r.protocol) ∧
    getBuyQuoteOperations amounts routes
      = Except.ok (routes.map fun r => getUniswapV2BuyQuotes r.path amounts r.protocol) := by
  induction routes with
  | nil => exact ⟨rfl, rfl⟩
  | cons r rs ih =>
    have hr : supportedSampleProtocol r.protocol = true := h r (by simp)
    obtain ⟨ih1, ih2⟩ := ih (fun x hx => h x (by simp [hx]))
    unfold getSellQuoteOperations at ih1 ⊢
    unfold getBuyQuoteOperations at ih2 ⊢
    rw [List.mapM_cons, List.mapM_cons]
    cases hp : r.protocol with
    | UniswapV2 =>
      constructor
      · rw [ih1]; simp only [List.map_cons, hp]; rfl
      · rw [ih2]; simp only [List.map_cons, hp]; rfl
    | SushiSwap =>
      constructor
      · rw [ih1]; simp only [List.map_cons, hp]; rfl
      · rw [ih2]; simp only [List.map_cons, hp]; rfl
    | Curve => rw [hp] at hr; cases hr

/-- Witness for `quote_operations_recognized`: two recognized routes, one
of them the SushiSwap alias. -/
theorem quote_operations_recognized_witness :
    getSellQuoteOperations [1, 2]
        [⟨Protocol.UniswapV2, ["0xa", "0xb"]⟩, ⟨Protocol.SushiSwap, ["0xb", "0xc"]⟩]
      = Except.ok [getUniswapV2SellQuotes ["0xa", "0xb"] [1, 2] Protocol.UniswapV2,
          getUniswapV2SellQuotes ["0xb", "0xc"] [1, 2] Protocol.SushiSwap] ∧
    getBuyQuoteOperations [1, 2]
        [⟨Protocol.UniswapV2, ["0xa", "0xb"]⟩, ⟨Protocol.SushiSwap, ["0xb", "0xc"]⟩]
      = Except.ok [getUniswapV2BuyQuotes ["0xa", "0xb"] [1, 2] Protocol.UniswapV2,
          getUniswapV2BuyQuotes ["0xb", "0xc"] [1, 2] Protocol.SushiSwap] :=
  quote_operations_recognized [1, 2] _ (by decide)

/-- C4: as soon as the routes list contains a route whose classification
is not recognized (here: the first such route, preceded only by
recognized ones), both expanders throw the unsupported-protocol error
naming that classification, producing no partial operation list, and
the quote composers fail the same way before any operation — hence any
remote payload — is ever produced. -/
theorem quote_operations_unsupported (amounts : List BigNumber)
    (pre post : List SamplerRoute) (r : SamplerRoute) (routes : List SamplerRoute)
    (hroutes : routes = pre ++ r :: post)
    (hpre : ∀ x ∈ pre, supportedSampleProtocol x.protocol = true)
    (hr : supportedSampleProtocol r.protocol = false) :
    getSellQuoteOperations amounts routes
      = Except.error ("Unsupported sell sample protocol: " ++ r.protocol.label) ∧
    getBuyQuoteOperations amounts routes
      = Except.error ("Unsupported buy sample protocol: " ++ r.protocol.label) ∧
    getSellQuotes amounts routes
      = Except.error ("Unsupported sell sample protocol: " ++ r.protocol.label) ∧
    getBuyQuotes amounts routes
      = Except.error ("Unsupported buy sample protocol: " ++ r.protocol.label) := by
  subst hroutes
  have main : getSellQuoteOperations amounts (pre ++ r :: post)
      = Except.error ("Unsupported sell sample protocol: " ++ r.protocol.label) ∧
      getBuyQuoteOperations amounts (pre ++ r :: post)
      = Except.error ("Unsupported buy sample protocol: " ++ r.protocol.label) := by
    induction pre with
    | nil =>
      simp only [List.nil_append]
      unfold getSellQuoteOperations getBuyQuoteOperations
      rw [List.mapM_cons, List.mapM_cons]
      cases hp : r.protocol with
      | UniswapV2 => rw [hp] at hr; cases hr
      | SushiSwap => rw [hp] at hr; cases hr
      | Curve => constructor <;> (simp only [hp]; rfl)
    | cons x xs ih =>
      have hx : supportedSampleProtocol x.protocol = true := hpre x (by simp)
      obtain ⟨ih1, ih2⟩ := ih (fun y hy => hpre y (by simp [hy]))
      unfold getSellQuoteOperations at ih1 ⊢
      unfold getBuyQuoteOperations at ih2 ⊢
      simp only [List.cons_append]
      rw [List.mapM_cons, List.mapM_cons]
      cases hp : x.protocol with
      | UniswapV2 =>
        constructor
        · rw [ih1]; simp only [hp]; rfl
        · rw [ih2]; simp only [hp]; rfl
      | SushiSwap =>
        constructor
        · rw [ih1]; simp only [hp]; rfl
        · rw [ih2]; simp only [hp]; rfl
      | Curve => rw [hp] at hx; cases hx
  refine ⟨main.1, main.2, ?_, ?_⟩
  · unfold getSellQuotes
    rw [main.1]
    rfl
  · unfold getBuyQuotes
    rw [main.2]
    rfl

/-- Witness for `quote_operations_unsupported`: a recognized route
followed by a Curve route, which the expanders do not recognize. -/
theorem quote_operations_unsupported_witness :
    getSellQuoteOperations [1]
        [⟨Protocol.UniswapV2, ["0xa", "0xb"]⟩, ⟨Protocol.Curve, ["0xa", "0xc"]⟩]
      = Except.error ("Unsupported sell sample protocol: " ++ Protocol.label Protocol.Curve) ∧
    getBuyQuoteOperations [1]
        [⟨Protocol.UniswapV2, ["0xa", "0xb"]⟩, ⟨Protocol.Curve, ["0xa", "0xc"]⟩]
      = Except.error ("Unsupported buy sample protocol: " ++ Protocol.label Protocol.Curve) ∧
    getSellQuotes [1]
        [⟨Protocol.UniswapV2, ["0xa", "0xb"]⟩, ⟨Protocol.Curve, ["0xa", "0xc"]⟩]
      = Except.error ("Unsupported sell sample protocol: " ++ Protocol.label Protocol.Curve) ∧
    getBuyQuotes [1]
        [⟨Protocol.UniswapV2, ["0xa", "0xb"]⟩, ⟨Protocol.Curve, ["0xa", "0xc"]⟩]
      = Except.error ("Unsupported buy sample protocol: " ++ Protocol.label Protocol.Curve) :=
  quote_operations_unsupported [1] [⟨Protocol.UniswapV2, ["0xa", "0xb"]⟩] []
    ⟨Protocol.Curve, ["0xa", "0xc"]⟩ _ rfl (by decide) rfl

@[simp]
theorem except_bind_ok {ε α β : Type} (a : α) (f : α → Except ε β) :
    (Except.ok a >>= f) = f a :=
  rfl

@[simp]
theorem except_bind_error {ε α β : Type} (e : ε) (f : α → Except ε β) :
    ((Except.error e : Except ε α) >>= f) = Except.error e :=
  rfl

@[simp]
theorem except_pure_eq_ok {ε α : Type} (a : α) :
    (pure a : Except ε α) = Except.ok a :=
  rfl

theorem exceptMapM_ok_spec {α β : Type} (g : α → Except String β) :
    ∀ (l : List α) (res : List β), l.mapM g = Except.ok res →
      res.length = l.length ∧
      ∀ (i : Nat) (a : α), l.get? i = some a → res.get? i = (g a).toOption := by
  intro l
  induction l with
  | nil =>
    intro res h
    rw [List.mapM_nil] at h
    injection h with h
    subst h
    exact ⟨rfl, fun i a ha => by simp at ha⟩
  | cons x xs ih =>
    intro res h
    rw [List.mapM_cons] at h
    cases hg : g x with
    | error e => rw [hg] at h; rw [except_bind_error] at h; cases h
    | ok b =>
      rw [hg, except_bind_ok] at h
      cases hxs : xs.mapM g with
      | error e => rw [hxs, except_bind_error] at h; cases h
      | ok bs =>
        rw [hxs, except_bind_ok, except_pure_eq_ok] at h
        injection h with h
        subst h
        obtain ⟨ihlen, ihget⟩ := ih bs hxs
        refine ⟨by simp [ihlen], ?_⟩
        intro i a ha
        cases i with
        | zero =>
          simp only [List.get?] at ha ⊢
          injection ha with ha
          subst ha
          rw [hg]
          rfl
        | succ n =>
          simp only [List.get?] at ha ⊢
          exact ihget n a ha

/-- C3: when every operation's payload is the `NULL_BYTES` sentinel, the
executor short-circuits locally: its result is the sequential local
decode of the sentinel by every operation, it is entirely independent of
the remote collaborator (zero remote invocations), and on success
`result[i] = ops[i].handleCallResults(sentinel)` with the input length
preserved. -/
theorem executeBatchAsync_all_sentinel {T : Type}
    (remote remote' : List Payload → Except String (List Payload))
    (ops : List (ContractOperation T)) (res : List T) (i : Nat)
    (op : ContractOperation T)
    (hall : ∀ o ∈ ops, o.encodeCall = Payload.nullBytes)
    (hres : executeBatchAsync remote ops = Except.ok res)
    (hop : ops.get? i = some op) :
    executeBatchAsync remote ops
      = ops.mapM (fun o => o.handleCallResults Payload.nullBytes) ∧
    executeBatchAsync remote ops = executeBatchAsync remote' ops ∧
    res.length = ops.length ∧
    res.get? i = (op.handleCallResults Payload.nullBytes).toOption := by
  have hcond : (ops.map (·.encodeCall)).all Payload.isNull = true := by
    rw [List.all_eq_true]
    intro cd hcd
    rw [List.mem_map] at hcd
    obtain ⟨o, ho, rfl⟩ := hcd
    rw [hall o ho]
    rfl
  have hbranch : ∀ (rem : List Payload → Except String (List Payload)),
      executeBatchAsync rem ops
        = ops.mapM (fun o => o.handleCallResults Payload.nullBytes) := by
    intro rem
    unfold executeBatchAsync
    rw [if_pos hcond]
  have hmain := hbranch remote
  have hok : ops.mapM (fun o => o.handleCallResults Payload.nullBytes)
      = Except.ok res := by rw [← hmain]; exact hres
  obtain ⟨hlen, hget⟩ :=
    exceptMapM_ok_spec (fun o => o.handleCallResults Payload.nullBytes) ops res hok
  exact ⟨hmain, by rw [hbranch remote, hbranch remote'], hlen, hget i op hop⟩

/-- Witness for `executeBatchAsync_all_sentinel`: a single
sentinel-encoded operation, executed against a remote that would fail if
it were ever invoked. -/
theorem executeBatchAsync_all_sentinel_witness :
    executeBatchAsync (fun _ => Except.error "remote down") [sentinelOp]
      = [sentinelOp].mapM (fun o => o.handleCallResults Payload.nullBytes) ∧
    executeBatchAsync (fun _ => Except.error "remote down") [sentinelOp]
      = executeBatchAsync (fun _ => Except.ok []) [sentinelOp] ∧
    ([3] : List Nat).length = [sentinelOp].length ∧
    ([3] : List Nat).get? 0 = (sentinelOp.handleCallResults Payload.nullBytes).toOption :=
  executeBatchAsync_all_sentinel (fun _ => Except.error "remote down")
    (fun _ => Except.ok []) [sentinelOp] [3] 0 sentinelOp
    (by intro o ho; rw [List.mem_singleton] at ho; subst ho; rfl) rfl rfl

theorem spliceDecode_nil {T : Type} (raw : List Payload) (idx : Nat) :
    spliceDecode raw ([] : List (ContractOperation T)) idx = Except.ok [] :=
  rfl

theorem spliceDecode_cons {T : Type} (raw : List Payload) (op : ContractOperation T)
    (ops : List (ContractOperation T)) (idx : Nat) :
    spliceDecode raw (op :: ops) idx
      = (if op.encodeCall.isNull then
          (op.handleCallResults Payload.nullBytes) >>= fun r =>
            spliceDecode raw ops idx >>= fun rs => pure (r :: rs)
        else
          (op.handleCallResults (raw.getD idx Payload.undef)) >>= fun r =>
            spliceDecode raw ops (idx + 1) >>= fun rs => pure (r :: rs)) :=
  rfl

theorem spliceDecode_ok_spec {T : Type} (raw : List Payload) :
    ∀ (ops : List (ContractOperation T)) (idx : Nat) (res : List T),
      spliceDecode raw ops idx = Except.ok res →
      res.length = ops.length ∧
      ∀ (i : Nat) (op : ContractOperation T), ops.get? i = some op →
        res.get? i = (op.handleCallResults
          (if op.encodeCall.isNull then Payload.nullBytes
           else raw.getD
             (idx + ((ops.take i).map (·.encodeCall)).countP (fun cd => !cd.isNull))
             Payload.undef)).toOption := by
  intro ops
  induction ops with
  | nil =>
    intro idx res h
    rw [spliceDecode_nil] at h
    injection h with h
    subst h
    exact ⟨rfl, fun i op hop => by simp at hop⟩
  | cons op ops ih =>
    intro idx res h
    rw [spliceDecode_cons] at h
    cases hnull : op.encodeCall.isNull with
    | true =>
      rw [if_pos hnull] at h
      cases hr : op.handleCallResults Payload.nullBytes with
      | error e => rw [hr, except_bind_error] at h; cases h
      | ok r =>
        rw [hr, except_bind_ok] at h
        cases hrest : spliceDecode raw ops idx with
        | error e => rw [hrest, except_bind_error] at h; cases h
        | ok rs =>
          rw [hrest, except_bind_ok, except_pure_eq_ok] at h
          injection h with h
          subst h
          obtain ⟨ihlen, ihget⟩ := ih idx rs hrest
          refine ⟨by simp [ihlen], ?_⟩
          intro i op' hop'
          cases i with
          | zero =>
            simp only [List.get?] at hop' ⊢
            injection hop' with hop'
            subst hop'
            rw [if_pos hnull, hr]
            rfl
          | succ n =>
            simp only [List.get?] at hop' ⊢
            have hper := ihget n op' hop'
            rw [List.take_succ_cons, List.map_cons]
            have hcount :
                List.countP (fun cd => !cd.isNull)
                    (op.encodeCall :: (ops.take n).map (·.encodeCall))
                  = List.countP (fun cd => !cd.isNull)
                    ((ops.take n).map (·.encodeCall)) := by
              rw [List.countP_cons]
              simp [hnull]
            rw [hcount]
            exact hper
    | false =>
      rw [if_neg (by simp [hnull])] at h
      cases hr : op.handleCallResults (raw.getD idx Payload.undef) with
      | error e => rw [hr, except_bind_error] at h; cases h
      | ok r =>
        rw [hr, except_bind_ok] at h
        cases hrest : spliceDecode raw ops (idx + 1) with
        | error e => rw [hrest, except_bind_error] at h; cases h
        | ok rs =>
          rw [hrest, except_bind_ok, except_pure_eq_ok] at h
          injection h with h
          subst h
          obtain ⟨ihlen, ihget⟩ := ih (idx + 1) rs hrest
          refine ⟨by simp [ihlen], ?_⟩
          intro i op' hop'
          cases i with
          | zero =>
            simp only [List.get?] at hop' ⊢
            injection hop' with hop'
            subst hop'
            rw [if_neg (by simp [hnull])]
            simp only [List.take_zero, List.map_nil, List.countP_nil, Nat.add_zero]
            rw [hr]
            rfl
          | succ n =>
            simp only [List.get?] at hop' ⊢
            have hper := ihget n op' hop'
            rw [List.take_succ_cons, List.map_cons]
            have hcount :
                List.countP (fun cd => !cd.isNull)
                    (op.encodeCall :: (ops.take n).map (·.encodeCall))
                  = List.countP (fun cd => !cd.isNull)
                    ((ops.take n).map (·.encodeCall)) + 1 := by
              rw [List.countP_cons]
              simp [hnull]
            rw [hcount]
            have harith :
                idx + (((ops.take n).map (·.encodeCall)).countP (fun cd => !cd.isNull) + 1)
                  = idx + 1
                    + ((ops.take n).map (·.encodeCall)).countP (fun cd => !cd.isNull) := by
              omega
            rw [harith]
            exact hper

/-- C2: for an operations list with at least one non-sentinel payload,
the executor's behaviour depends on the remote collaborator only through
its answer to exactly the non-sentinel payloads in their original
relative order (any remote agreeing on that filtered list yields the
same output); on success the output has one entry per operation, and
entry `i` is `ops[i].handleCallResults` applied to the sentinel when
`ops[i]` encoded the sentinel, and otherwise to the next unconsumed raw
remote result — the one whose position equals the number of non-sentinel
payloads before index `i`. -/
theorem executeBatchAsync_aligns {T : Type}
    (remote remote' : List Payload → Except String (List Payload))
    (ops : List (ContractOperation T)) (raw : List Payload) (res : List T)
    (i : Nat) (op : ContractOperation T)
    (hsome : (ops.map (·.encodeCall)).all Payload.isNull = false)
    (hremote : remote ((ops.map (·.encodeCall)).filter (fun cd => !cd.isNull))
      = Except.ok raw)
    (hremote' : remote' ((ops.map (·.encodeCall)).filter (fun cd => !cd.isNull))
      = Except.ok raw)
    (hres : executeBatchAsync remote ops = Except.ok res)
    (hop : ops.get? i = some op) :
    res.length = ops.length ∧
    executeBatchAsync remote' ops = Except.ok res ∧
    res.get? i = (op.handleCallResults
      (if op.encodeCall.isNull then Payload.nullBytes
       else raw.getD (((ops.take i).map (·.encodeCall)).countP (fun cd => !cd.isNull))
         Payload.undef)).toOption := by
  have hnotall : ¬ (ops.map (·.encodeCall)).all Payload.isNull = true := by
    rw [hsome]; exact Bool.false_ne_true
  have hsplice : spliceDecode raw ops 0 = Except.ok res := by
    unfold executeBatchAsync at hres
    rw [if_neg hnotall, hremote, except_bind_ok] at hres
    exact hres
  obtain ⟨hlen, hget⟩ := spliceDecode_ok_spec raw ops 0 res hsplice
  have hper := hget i op hop
  rw [Nat.zero_add] at hper
  refine ⟨hlen, ?_, hper⟩
  unfold executeBatchAsync
  rw [if_neg hnotall, hremote', except_bind_ok]
  exact hsplice

/-- Witness for `executeBatchAsync_aligns`: one non-sentinel sell-quote
operation, a remote returning a single decoded slot, and the resulting
singleton output. -/
theorem executeBatchAsync_aligns_witness :
    ([[(5 : BigNumber)]] : List (List BigNumber)).length
      = [sellOpA.toContractOperation].length ∧
    executeBatchAsync (fun _ => Except.ok [Payload.resultNums [5]])
      [sellOpA.toContractOperation] = Except.ok [[(5 : BigNumber)]] ∧
    ([[(5 : BigNumber)]] : List (List BigNumber)).get? 0
      = (sellOpA.toContractOperation.handleCallResults
          (if sellOpA.toContractOperation.encodeCall.isNull then Payload.nullBytes
           else [Payload.resultNums [5]].getD
             ((([sellOpA.toContractOperation].take 0).map (·.encodeCall)).countP
               (fun cd => !cd.isNull))
             Payload.undef)).toOption :=
  executeBatchAsync_aligns (fun _ => Except.ok [Payload.resultNums [5]])
    (fun _ => Except.ok [Payload.resultNums [5]])
    [sellOpA.toContractOperation] [Payload.resultNums [5]] [[(5 : BigNumber)]]
    0 sellOpA.toContractOperation rfl rfl rfl rfl rfl

/-- C6: the combinator shared by `getSellQuotes` and `getBuyQuotes` maps
the per-sub-operation decoded quantity lists to a routes-major,
amounts-minor aggregate: the row for route `i` has one entry per decoded
quantity, and the entry at column `j` is the sample tagged with
`routes[i].protocol`, whose input is `amounts[j]` and whose output is
`samples[i][j]`. -/
theorem sampleCombiner_grid (amounts : List BigNumber) (routes : List SamplerRoute)
    (samples : List (List BigNumber)) (i j : Nat) (route : SamplerRoute)
    (out : BigNumber)
    (hi : routes.get? i = some route)
    (hj : (samples.getD i []).get? j = some out) :
    (sampleCombiner amounts routes samples).length = routes.length ∧
    ((sampleCombiner amounts routes samples).getD i []).length
      = (samples.getD i []).length ∧
    ((sampleCombiner amounts routes samples).getD i []).get? j
      = some { protocol := route.protocol, input := amounts.get? j, output := out } := by
  have hrow : (sampleCombiner amounts routes samples).get? i
      = some ((samples.getD i []).enum.map fun jo =>
          { protocol := route.protocol, input := amounts.get? jo.1, output := jo.2 }) := by
    unfold sampleCombiner
    rw [List.get?_map, List.get?_enum, hi]
    rfl
  have hgetD : (sampleCombiner amounts routes samples).getD i []
      = (samples.getD i []).enum.map fun jo =>
          { protocol := route.protocol, input := amounts.get? jo.1, output := jo.2 } := by
    rw [List.getD_eq_get?, hrow]
    rfl
  refine ⟨?_, ?_, ?_⟩
  · unfold sampleCombiner
    simp
  · rw [hgetD]
    simp
  · rw [hgetD, List.get?_map, List.get?_enum, hj]
    rfl

/-- Witness for `sampleCombiner_grid`: the spec's worked example — one
SushiSwap route, amounts `[100, 200]`, decoded samples `[[10, 19]]`. -/
theorem sampleCombiner_grid_witness :
    (sampleCombiner [100, 200] [⟨Protocol.SushiSwap, ["X", "Y"]⟩] [[10, 19]]).length
      = ([⟨Protocol.SushiSwap, ["X", "Y"]⟩] : List SamplerRoute).length ∧
    ((sampleCombiner [100, 200] [⟨Protocol.SushiSwap, ["X", "Y"]⟩] [[10, 19]]).getD 0 []).length
      = (([[10, 19]] : List (List BigNumber)).getD 0 []).length ∧
    ((sampleCombiner [100, 200] [⟨Protocol.SushiSwap, ["X", "Y"]⟩] [[10, 19]]).getD 0 []).get? 1
      = some { protocol := Protocol.SushiSwap,
               input := ([100, 200] : List BigNumber).get? 1, output := 19 } :=
  sampleCombiner_grid [100, 200] [⟨Protocol.SushiSwap, ["X", "Y"]⟩] [[10, 19]]
    0 1 ⟨Protocol.SushiSwap, ["X", "Y"]⟩ 19 rfl rfl

@[simp]
theorem except_map_ok {ε α β : Type} (f : α → β) (a : α) :
    (Except.ok a : Except ε α).map f = Except.ok (f a) :=
  rfl

@[simp]
theorem except_map_error {ε α β : Type} (f : α → β) (e : ε) :
    (Except.error e : Except ε α).map f = Except.error e :=
  rfl

theorem execCall_nullBytes (call1 : Payload → Payload) :
    execCall call1 Payload.nullBytes = call1 Payload.nullBytes := by
  simp [execCall]

theorem decodeSubcalls_nil {TResult : Type} (raws : List Payload) :
    decodeSubcalls ([] : List (ContractOperation TResult)) raws = Except.ok [] :=
  rfl

theorem decodeSubcalls_cons_nil {TResult : Type} (op : ContractOperation TResult)
    (ops : List (ContractOperation TResult)) :
    decodeSubcalls (op :: ops) []
      = (op.handleCallResults Payload.undef) >>= fun r =>
          decodeSubcalls ops [] >>= fun rs => pure (r :: rs) :=
  rfl

theorem decodeSubcalls_cons_cons {TResult : Type} (op : ContractOperation TResult)
    (ops : List (ContractOperation TResult)) (raw : Payload) (raws : List Payload) :
    decodeSubcalls (op :: ops) (raw :: raws)
      = (op.handleCallResults raw) >>= fun r =>
          decodeSubcalls ops raws >>= fun rs => pure (r :: rs) :=
  rfl

theorem spliceDecode_eq_decodeSubcalls {T : Type} (raw : List Payload) :
    ∀ (ops : List (ContractOperation T)) (idx : Nat),
      (∀ op ∈ ops, op.encodeCall.isNull = false) →
      spliceDecode raw ops idx = decodeSubcalls ops (raw.drop idx) := by
  intro ops
  induction ops with
  | nil =>
    intro idx h
    rw [spliceDecode_nil, decodeSubcalls_nil]
  | cons op ops ih =>
    intro idx h
    have hop : op.encodeCall.isNull = false := h op (by simp)
    have ih' := ih (idx + 1) (fun o ho => h o (by simp [ho]))
    rw [spliceDecode_cons, if_neg (by simp [hop])]
    by_cases hlt : idx < raw.length
    · rw [List.drop_eq_getElem_cons hlt, decodeSubcalls_cons_cons]
      have hgetD : raw.getD idx Payload.undef = raw[idx] :=
        List.getD_eq_getElem raw Payload.undef hlt
      rw [hgetD]
      simp only [ih']
    · have hge : raw.length ≤ idx := Nat.le_of_not_lt hlt
      have hdrop : raw.drop idx = [] := by rw [List.drop_eq_nil_iff]; exact hge
      have hdrop1 : raw.drop (idx + 1) = [] := by rw [List.drop_eq_nil_iff]; omega
      have hgetD : raw.getD idx Payload.undef = Payload.undef :=
        List.getD_eq_default raw Payload.undef hge
      rw [hdrop, decodeSubcalls_cons_nil, hgetD]
      simp only [ih', hdrop1]

/-- C8 (amended): provided no sub-operation's payload is the `NULL_BYTES`
sentinel, composing sub-operations with `createBatch` and executing the
single composite through the executor yields exactly the singleton list
of what executing the sub-operations directly and then applying the
combinator yields — composition is observationally transparent.  The
remote collaborator is the spec-modelled nested batch entrypoint
`remoteOf` over an arbitrary per-call oracle. -/
theorem composeBatch_transparent {T TResult : Type}
    (subOps : List (ContractOperation TResult)) (combine : List TResult → T)
    (onFail : Payload → T) (call1 : Payload → Payload)
    (h : ∀ op ∈ subOps, op.encodeCall.isNull = false) :
    executeBatchAsync (remoteOf call1) [createBatch subOps combine onFail]
      = ((executeBatchAsync (remoteOf call1) subOps).map combine).map
          (fun x => [x]) := by
  have hLHS : executeBatchAsync (remoteOf call1) [createBatch subOps combine onFail]
      = (decodeSubcalls subOps ((subOps.map (·.encodeCall)).map (execCall call1)))
          >>= fun results => pure [combine results] := by
    unfold executeBatchAsync
    rw [if_neg (by simp [createBatch, Payload.isNull])]
    simp only [createBatch, List.map_cons, List.map_nil, List.filter_cons,
      Payload.isNull, Bool.not_false, if_true, List.filter_nil, remoteOf,
      execCall_batchCallData, except_bind_ok, spliceDecode_cons, spliceDecode_nil]
    rw [if_neg (by simp [Payload.isNull])]
    simp only [List.getD_cons_zero, decodeBatchCallResult, except_bind_ok]
    cases hD : decodeSubcalls subOps ((subOps.map (·.encodeCall)).map (execCall call1)) with
    | error e => rfl
    | ok rs => rfl
  rw [hLHS]
  cases subOps with
  | nil =>
    rw [show executeBatchAsync (remoteOf call1) ([] : List (ContractOperation TResult))
      = Except.ok [] from rfl]
    rfl
  | cons hd tl =>
    have hhd : hd.encodeCall.isNull = false := h hd (by simp)
    have hfilter : (((hd :: tl).map (·.encodeCall)).filter (fun cd => !cd.isNull))
        = (hd :: tl).map (·.encodeCall) := by
      rw [List.filter_eq_self]
      intro cd hcd
      rw [List.mem_map] at hcd
      obtain ⟨o, ho, rfl⟩ := hcd
      rw [h o ho]
      rfl
    have hRHS : executeBatchAsync (remoteOf call1) (hd :: tl)
        = decodeSubcalls (hd :: tl) (((hd :: tl).map (·.encodeCall)).map (execCall call1)) := by
      unfold executeBatchAsync
      rw [if_neg (by simp [hhd])]
      rw [hfilter]
      simp only [remoteOf, except_bind_ok]
      rw [spliceDecode_eq_decodeSubcalls _ _ 0 h, List.drop_zero]
    rw [hRHS]
    cases hD : decodeSubcalls (hd :: tl) (((hd :: tl).map (·.encodeCall)).map (execCall call1)) with
    | error e => rfl
    | ok rs => rfl

/-- C8 counterexample: with a sub-operation whose payload is the
`NULL_BYTES` sentinel, composition is not transparent: executing the
sub-operation directly short-circuits the sentinel locally (it decodes
`NULL_BYTES` itself), while the composite ships the sentinel to the
remote batch entrypoint, whose answer for that slot is what the
sub-operation then decodes — the two executions disagree. -/
theorem composeBatch_not_transparent :
    ¬ (executeBatchAsync (remoteOf revertingOracle)
          [createBatch [sentinelProbeOp] (fun rs => rs) (fun _ => [])]
        = ((executeBatchAsync (remoteOf revertingOracle) [sentinelProbeOp]).map
            (fun rs => rs)).map (fun x => [x])) := by
  intro hcontra
  have h1 : executeBatchAsync (remoteOf revertingOracle)
      [createBatch [sentinelProbeOp] (fun rs => rs) (fun _ => [])]
      = Except.ok [[1]] := by
    unfold executeBatchAsync
    rw [if_neg (by simp [createBatch, Payload.isNull])]
    simp only [createBatch, sentinelProbeOp, List.map_cons, List.map_nil,
      List.filter_cons, Payload.isNull, Bool.not_false, if_true, List.filter_nil,
      remoteOf, execCall_batchCallData, execCall_nullBytes, revertingOracle,
      except_bind_ok, spliceDecode_cons, spliceDecode_nil]
    rw [if_neg (by simp [Payload.isNull])]
    simp only [List.getD_cons_zero, decodeBatchCallResult, except_bind_ok]
    rfl
  have h2 : ((executeBatchAsync (remoteOf revertingOracle) [sentinelProbeOp]).map
      (fun rs => rs)).map (fun x => [x]) = Except.ok [[0]] := rfl
  rw [h1, h2] at hcontra
  simp at hcontra

/-- Witness for `composeBatch_transparent`: one non-sentinel sell-quote
operation under an oracle answering with a decoded quantity list. -/
theorem composeBatch_transparent_witness :
    executeBatchAsync (remoteOf (fun _ => Payload.resultNums [9]))
        [createBatch [sellOpA.toContractOperation] (fun rs => rs) (fun _ => [])]
      = ((executeBatchAsync (remoteOf (fun _ => Payload.resultNums [9]))
            [sellOpA.toContractOperation]).map (fun rs => rs)).map (fun x => [x]) :=
  composeBatch_transparent [sellOpA.toContractOperation] (fun rs => rs) (fun _ => [])
    (fun _ => Payload.resultNums [9])
    (by intro o ho; rw [List.mem_singleton] at ho; subst ho; rfl)
